import Mathlib

/-!
Shallow embedding of the zenix VGA text-mode console driver (src/vga.rs,
src/main.rs) and proofs about it.

The hardware text buffer is modelled as a 25 x 80 grid of screen characters
stored as a list of rows; a `Volatile` write to `buffer.chars[row][col]`
becomes a functional update of that grid.  Machine integers (`u8`, `usize`)
are modelled as `Nat`: none of the arithmetic in the driver can overflow a
`usize`, and `u8` byte values are only moved around, never computed with.
-/

namespace Zenix

/-- Constant `BUFFER_HEIGHT` from src/vga.rs: number of rows of the VGA text grid. -/
def BUFFER_HEIGHT : Nat := 25

/-- Constant `BUFFER_WIDTH` from src/vga.rs: number of columns of the VGA text grid. -/
def BUFFER_WIDTH : Nat := 80

/-- The `Color` enum from src/vga.rs (`#[repr(u8)]`). -/
inductive Color where
  | black | blue | green | cyan | red | magenta | brown | lightGray
  | darkGray | lightBlue | lightGreen | lightCyan | lightRed | pink
  | yellow | white
deriving DecidableEq

/-- The `u8` discriminant of a `Color`, as assigned in src/vga.rs. -/
def Color.code : Color → Nat
  | .black => 0 | .blue => 1 | .green => 2 | .cyan => 3
  | .red => 4 | .magenta => 5 | .brown => 6 | .lightGray => 7
  | .darkGray => 8 | .lightBlue => 9 | .lightGreen => 10 | .lightCyan => 11
  | .lightRed => 12 | .pink => 13 | .yellow => 14 | .white => 15

/-- Function `ColorCode::new` from src/vga.rs: `(background as u8) << 4 | (foreground as u8)`.
A `ColorCode` is a `u8`, modelled as a `Nat` (always `< 256`). -/
def ColorCode.new (foreground background : Color) : Nat :=
  (background.code <<< 4) ||| foreground.code

/-- Struct `ScreenChar` from src/vga.rs: one cell of the grid. -/
structure ScreenChar where
  ascii_character : Nat
  color_code : Nat
deriving DecidableEq

/-- Struct `Buffer` from src/vga.rs: the 25-row x 80-column grid of volatile cells,
modelled as a list of rows. -/
@[ext]
structure Buffer where
  chars : List (List ScreenChar)
deriving DecidableEq

/-- A volatile read `self.buffer.chars[row][col].read()`. -/
def Buffer.readChar (b : Buffer) (row col : Nat) : ScreenChar :=
  (b.chars.getD row []).getD col ⟨0, 0⟩

/-- A volatile write `self.buffer.chars[row][col].write(c)`. -/
def Buffer.writeChar (b : Buffer) (row col : Nat) (c : ScreenChar) : Buffer :=
  ⟨b.chars.set row ((b.chars.getD row []).set col c)⟩

/-- Struct `Writer` from src/vga.rs.  The `&'static mut Buffer` becomes an owned
grid: every method returns the updated writer. -/
@[ext]
structure Writer where
  current_col : Nat
  current_row : Nat
  default_color_code : Nat
  buffer : Buffer
deriving DecidableEq

/-- Method `Writer::clear_row` from src/vga.rs: fill every column of `row` with a
blank cell `{ ' ', default_color_code }`. -/
def Writer.clear_row (w : Writer) (row : Nat) : Writer :=
  let blank : ScreenChar := ⟨0x20, w.default_color_code⟩
  let b' := (List.range BUFFER_WIDTH).foldl
    (fun b col => b.writeChar row col blank) w.buffer
  { w with buffer := b' }

/-- Method `Writer::new_line` from src/vga.rs.  On the last row, shift every row up
by one cell-by-cell (`for row in 1..BUFFER_HEIGHT { for col in 0..BUFFER_WIDTH
{ ... } }`) and clear the bottom row; otherwise just advance `current_row`.
In both cases reset `current_col` to 0. -/
def Writer.new_line (w : Writer) : Writer :=
  let w' :=
    if w.current_row = BUFFER_HEIGHT - 1 then
      let b' := (List.range' 1 (BUFFER_HEIGHT - 1)).foldl
        (fun b row =>
          (List.range BUFFER_WIDTH).foldl
            (fun b col => b.writeChar (row - 1) col (b.readChar row col)) b)
        w.buffer
      let w₁ := { w with buffer := b' }
      w₁.clear_row w₁.current_row
    else
      { w with current_row := w.current_row + 1 }
  { w' with current_col := 0 }

/-- Method `Writer::write_byte` from src/vga.rs. -/
def Writer.write_byte (w : Writer) (byte : Nat) : Writer :=
  if byte = 0x0a then
    w.new_line
  else
    let w₁ := if BUFFER_WIDTH ≤ w.current_col then w.new_line else w
    let row := w₁.current_row
    let col := w₁.current_col
    let color_code := w₁.default_color_code
    let w₂ := { w₁ with buffer := w₁.buffer.writeChar row col ⟨byte, color_code⟩ }
    { w₂ with current_col := w₂.current_col + 1 }

/-- Method `Writer::write_string` from src/vga.rs: printable ASCII (0x20..=0x7e) and
newline are forwarded unchanged, everything else becomes 0xfe. -/
def Writer.write_string (w : Writer) (s : List Nat) : Writer :=
  s.foldl
    (fun w byte =>
      if (0x20 ≤ byte ∧ byte ≤ 0x7e) ∨ byte = 0x0a then w.write_byte byte
      else w.write_byte 0xfe)
    w

/-- The color code the static `WRITER` is constructed with:
`ColorCode::new(Color::White, Color::Black)`. -/
def initialColorCode : Nat := ColorCode.new .white .black

/-- The grid of a fresh console.  The Rust `WRITER` points at raw video
memory whose boot-time contents are outside the program; the spec's
end-to-end scenario starts from a fresh (all-blank) console, so the fresh
grid is all blank cells with the default color code. -/
def initialBuffer : Buffer :=
  ⟨List.replicate BUFFER_HEIGHT
    (List.replicate BUFFER_WIDTH ⟨0x20, initialColorCode⟩)⟩

/-- The static `WRITER` from src/vga.rs at a fresh console: cursor at (0,0),
white-on-black default color. -/
def initialWriter : Writer :=
  { current_col := 0
    current_row := 0
    default_color_code := initialColorCode
    buffer := initialBuffer }

/-- One CRTC port write issued by `disable_cursor`. -/
structure PortOut where
  port : Nat
  value : Nat
deriving DecidableEq

/-- Function `disable_cursor` from src/vga.rs as a function from the value read from
the Miscellaneous Output status port (0x3cc) to the ordered list of port
writes it issues: pick the CRTC address/data ports from bit 0 of the status
byte, write index 0x0a (Cursor Start Register) to the address port, then
write `1 << 4` (cursor-disable bit) to the data port. -/
def disable_cursor (misc_out : Nat) : List PortOut :=
  let crtc_addr : Nat := if misc_out &&& 1 = 0 then 0x3b4 else 0x3d4
  let crtc_data : Nat := if misc_out &&& 1 = 0 then 0x3b5 else 0x3d5
  [⟨crtc_addr, 0x0a⟩, ⟨crtc_data, 1 <<< 4⟩]

/-- The byte list of the string `"line {i}\n"` printed by `_start` in
src/main.rs for loop index `i` (`println!("line {}", i)`). -/
def lineBytes (i : Nat) : List Nat :=
  [0x6c, 0x69, 0x6e, 0x65, 0x20] ++ (Nat.toDigits 10 i).map Char.toNat ++ [0x0a]

/-- The console output of `_start` from src/main.rs: write `"line {i}\n"`
for `i` in `0..40` to the fresh writer. -/
def startWriter : Writer :=
  (List.range 40).foldl (fun w i => w.write_string (lineBytes i)) initialWriter

/-- The spec's description of `write_string`'s per-byte filtering, as a byte
transformer: printable ASCII (0x20-0x7E) and newline pass unchanged, every
other byte becomes the placeholder 0xFE.  This is the spec-side definition
used to state the refinement claim about `write_string`. -/
def substituteByte (byte : Nat) : Nat :=
  if (0x20 ≤ byte ∧ byte ≤ 0x7e) ∨ byte = 0x0a then byte else 0xfe

/-- The effect on one grid row of a run of straight-line `write_byte` calls:
overwrite cells `k, k+1, ...` with the given bytes (paired with `attr`). -/
def writeSeg (row : List ScreenChar) (k : Nat) (bs : List Nat) (attr : Nat) :
    List ScreenChar :=
  match bs with
  | [] => row
  | b :: bs => writeSeg (row.set k ⟨b, attr⟩) (k + 1) bs attr

/-- A call into the public `Writer` interface: `write_byte` or
`write_string`. -/
inductive ConsoleOp where
  | byteOp (b : Nat)
  | stringOp (s : List Nat)

/-- Run one public call against the writer. -/
def Writer.applyOp (w : Writer) : ConsoleOp → Writer
  | .byteOp b => w.write_byte b
  | .stringOp s => w.write_string s

/-! Instrumented copies of the `Writer` methods that count how many grid
cell writes (`Volatile::write` calls on `buffer.chars`) are performed.
They mirror the structure of the originals exactly; the only change is the
threaded counter, incremented once per `writeChar`. -/

/-- A counted volatile cell write. -/
def writeCharCounted (q : Writer × Nat) (row col : Nat) (c : ScreenChar) :
    Writer × Nat :=
  ({ q.1 with buffer := q.1.buffer.writeChar row col c }, q.2 + 1)

/-- Method `Writer::clear_row`, counting grid writes. -/
def Writer.clear_row_counted (q : Writer × Nat) (row : Nat) : Writer × Nat :=
  let blank : ScreenChar := ⟨0x20, q.1.default_color_code⟩
  (List.range BUFFER_WIDTH).foldl
    (fun q col => writeCharCounted q row col blank) q

/-- Method `Writer::new_line`, counting grid writes. -/
def Writer.new_line_counted (q : Writer × Nat) : Writer × Nat :=
  let q' :=
    if q.1.current_row = BUFFER_HEIGHT - 1 then
      let q₁ := (List.range' 1 (BUFFER_HEIGHT - 1)).foldl
        (fun q row =>
          (List.range BUFFER_WIDTH).foldl
            (fun q col =>
              writeCharCounted q (row - 1) col (q.1.buffer.readChar row col)) q)
        q
      Writer.clear_row_counted q₁ q₁.1.current_row
    else
      ({ q.1 with current_row := q.1.current_row + 1 }, q.2)
  ({ q'.1 with current_col := 0 }, q'.2)

/-- Method `Writer::write_byte`, counting grid writes. -/
def Writer.write_byte_counted (q : Writer × Nat) (byte : Nat) : Writer × Nat :=
  if byte = 0x0a then
    Writer.new_line_counted q
  else
    let q₁ := if BUFFER_WIDTH ≤ q.1.current_col then Writer.new_line_counted q
      else q
    let row := q₁.1.current_row
    let col := q₁.1.current_col
    let color_code := q₁.1.default_color_code
    let q₂ := writeCharCounted q₁ row col ⟨byte, color_code⟩
    ({ q₂.1 with current_col := q₂.1.current_col + 1 }, q₂.2)

/-- Method `Writer::write_string`, counting grid writes. -/
def Writer.write_string_counted (q : Writer × Nat) (s : List Nat) :
    Writer × Nat :=
  s.foldl
    (fun q byte =>
      if (0x20 ≤ byte ∧ byte ≤ 0x7e) ∨ byte = 0x0a then
        Writer.write_byte_counted q byte
      else Writer.write_byte_counted q 0xfe)
    q

/-- A blank cell of the fresh console. -/
def blankCell : ScreenChar := ⟨0x20, initialColorCode⟩

/-- A blank row of the fresh console. -/
def blankRow : List ScreenChar := List.replicate BUFFER_WIDTH blankCell

/-- The bytes of the visible text `"line {i}"` (no trailing newline). -/
def lineTextBytes (i : Nat) : List Nat :=
  [0x6c, 0x69, 0x6e, 0x65, 0x20] ++ (Nat.toDigits 10 i).map Char.toNat

/-- A console row holding the given text starting at column 0, padded with
blank cells to the full width. -/
def textRow (bs : List Nat) : List ScreenChar :=
  bs.map (fun b => ⟨b, initialColorCode⟩)
    ++ List.replicate (BUFFER_WIDTH - bs.length) blankCell

/-- The console row showing `"line {i}"`. -/
def lineRow (i : Nat) : List ScreenChar := textRow (lineTextBytes i)

/-- The state the spec's end-to-end scenario predicts for `_start`'s output:
rows 0..23 show `"line 16"` .. `"line 39"` in order, row 24 is blank, and
the cursor is parked at row 24, column 0. -/
def expectedC8 : Writer :=
  { current_col := 0
    current_row := BUFFER_HEIGHT - 1
    default_color_code := initialColorCode
    buffer := ⟨(List.range' 16 (BUFFER_HEIGHT - 1)).map lineRow ++ [blankRow]⟩ }

/-- The writer state after `_start` has printed lines `0..n-1`, for
`n ≤ 24`: those lines fill rows `0..n-1`, the remaining rows are blank, and
the cursor sits at `(n, 0)`. -/
def phase1Writer (n : Nat) : Writer :=
  ⟨0, n, initialColorCode,
    ⟨(List.range' 0 n).map lineRow
      ++ List.replicate (BUFFER_HEIGHT - n) blankRow⟩⟩

/-- The writer state after `_start` has printed lines `0..23+m`: rows 0..23
show lines `m..m+23`, the last row is blank, and the cursor sits at
`(24, 0)`. -/
def phase2Writer (m : Nat) : Writer :=
  ⟨0, BUFFER_HEIGHT - 1, initialColorCode,
    ⟨(List.range' m (BUFFER_HEIGHT - 1)).map lineRow ++ [blankRow]⟩⟩

/-! ## Generic list lemmas -/

section ListLemmas

variable {α : Type _}

lemma getD_set_self {l : List α} {i : Nat} (h : i < l.length) (v d : α) :
    (l.set i v).getD i d = v := by
  rw [List.getD_eq_getElem?_getD, List.getElem?_set_self h]
  rfl

lemma getD_set_ne {l : List α} {i j : Nat} (h : i ≠ j) (v d : α) :
    (l.set i v).getD j d = l.getD j d := by
  rw [List.getD_eq_getElem?_getD, List.getElem?_set_ne h,
    ← List.getD_eq_getElem?_getD]

lemma set_getD_self {l : List α} {i : Nat} (h : i < l.length) (d : α) :
    l.set i (l.getD i d) = l := by
  apply List.ext_getElem?
  intro n
  rw [List.getElem?_set]
  split
  · rename_i hin
    subst hin
    rw [List.getD_eq_getElem l d h, List.getElem?_eq_getElem h]
  · rfl

lemma take_set_succ (l : List α) (k : Nat) (v : α) (h : k < l.length) :
    (l.set k v).take (k + 1) = l.take k ++ [v] := by
  induction l generalizing k with
  | nil => simp at h
  | cons x xs ih =>
    cases k with
    | zero => simp
    | succ k =>
      simp only [List.set_cons_succ, List.take_succ_cons, List.cons_append]
      rw [ih k (by simpa using h)]

lemma set_append_length (xs ys : List α) (v : α) :
    (xs ++ ys).set xs.length v = xs ++ ys.set 0 v := by
  rw [List.set_append, if_neg (by omega), Nat.sub_self]

end ListLemmas

/-! ## Buffer lemmas -/

/-- Well-formedness of the grid: 25 rows of 80 cells each. -/
def Buffer.WF (b : Buffer) : Prop :=
  b.chars.length = BUFFER_HEIGHT ∧
    ∀ r, r < BUFFER_HEIGHT → (b.chars.getD r []).length = BUFFER_WIDTH

instance (b : Buffer) : Decidable b.WF := by
  unfold Buffer.WF
  infer_instance

lemma writeChar_chars (b : Buffer) (row col : Nat) (c : ScreenChar) :
    (b.writeChar row col c).chars
      = b.chars.set row ((b.chars.getD row []).set col c) := rfl

lemma length_writeChar (b : Buffer) (row col : Nat) (c : ScreenChar) :
    (b.writeChar row col c).chars.length = b.chars.length := by
  rw [writeChar_chars, List.length_set]

lemma getD_writeChar_self (b : Buffer) {row : Nat} (col : Nat) (c : ScreenChar)
    (h : row < b.chars.length) :
    (b.writeChar row col c).chars.getD row [] = (b.chars.getD row []).set col c := by
  rw [writeChar_chars, getD_set_self h]

lemma getD_writeChar_ne (b : Buffer) {row row' : Nat} (col : Nat) (c : ScreenChar)
    (h : row ≠ row') :
    (b.writeChar row col c).chars.getD row' [] = b.chars.getD row' [] := by
  rw [writeChar_chars, getD_set_ne h]

lemma WF_writeChar {b : Buffer} (row col : Nat) (c : ScreenChar) (hwf : b.WF) :
    (b.writeChar row col c).WF := by
  obtain ⟨hlen, hrows⟩ := hwf
  refine ⟨by rw [length_writeChar, hlen], ?_⟩
  intro r hr
  by_cases hrow : row = r
  · subst hrow
    by_cases hb : row < b.chars.length
    · rw [getD_writeChar_self b col c hb, List.length_set]
      exact hrows _ hr
    · exact absurd (hlen ▸ hr) hb
  · rw [getD_writeChar_ne b col c hrow]
    exact hrows _ hr

lemma readChar_writeChar_self (b : Buffer) {row col : Nat} (c : ScreenChar)
    (hr : row < b.chars.length) (hc : col < (b.chars.getD row []).length) :
    (b.writeChar row col c).readChar row col = c := by
  rw [Buffer.readChar, getD_writeChar_self b col c hr, getD_set_self hc]

lemma readChar_writeChar_row_ne (b : Buffer) {row row' : Nat} (col col' : Nat)
    (c : ScreenChar) (h : row ≠ row') :
    (b.writeChar row col c).readChar row' col' = b.readChar row' col' := by
  rw [Buffer.readChar, Buffer.readChar, getD_writeChar_ne b col c h]

lemma readChar_writeChar_col_ne (b : Buffer) (row : Nat) {col col' : Nat}
    (c : ScreenChar) (h : col ≠ col') :
    (b.writeChar row col c).readChar row col' = b.readChar row col' := by
  rw [Buffer.readChar, Buffer.readChar, writeChar_chars]
  by_cases hrow : row < b.chars.length
  · rw [getD_set_self hrow, getD_set_ne h]
  · rw [List.set_eq_of_length_le (by omega)]

/-! ## clear_row and the scroll loop, characterized -/

/-- The column loop of `clear_row`, solved: it overwrites columns
`k, k+1, ..., 79` of `row` with the blank cell. -/
lemma clear_cols_spec (blank : ScreenChar) :
    ∀ (m k : Nat) (b : Buffer) (row : Nat), k + m = BUFFER_WIDTH →
      row < b.chars.length →
      (b.chars.getD row []).length = BUFFER_WIDTH →
      (List.range' k m).foldl (fun b col => b.writeChar row col blank) b
        = ⟨b.chars.set row
            ((b.chars.getD row []).take k ++ List.replicate m blank)⟩ := by
  intro m
  induction m with
  | zero =>
    intro k b row hk hrow hlen
    simp only [List.range'_zero, List.foldl_nil, List.replicate_zero,
      List.append_nil]
    rw [List.take_of_length_le (by omega), set_getD_self hrow]
  | succ m ih =>
    intro k b row hk hrow hlen
    rw [List.range'_succ, List.foldl_cons,
      ih (k + 1) _ row (by omega) (by rw [length_writeChar]; exact hrow)
        (by rw [getD_writeChar_self b k blank hrow, List.length_set]; exact hlen)]
    rw [getD_writeChar_self b k blank hrow, writeChar_chars, List.set_set,
      take_set_succ _ k blank (by omega), List.replicate_succ]
    simp [List.append_assoc]

/-- Method `Writer.clear_row`, solved: row `row` becomes 80 blank cells, everything
else (cursor, color, other rows) is untouched. -/
lemma clear_row_spec (w : Writer) (row : Nat)
    (hrow : row < w.buffer.chars.length)
    (hlen : (w.buffer.chars.getD row []).length = BUFFER_WIDTH) :
    w.clear_row row
      = { w with buffer :=
            ⟨w.buffer.chars.set row
              (List.replicate BUFFER_WIDTH ⟨0x20, w.default_color_code⟩)⟩ } := by
  rw [Writer.clear_row, List.range_eq_range']
  rw [clear_cols_spec _ BUFFER_WIDTH 0 w.buffer row (by omega) hrow hlen]
  rfl

/-- The column loop of the scroll, solved: columns `k..79` of row `src - 1`
receive the corresponding columns of row `src`. -/
lemma copy_cols_spec (src : Nat) (hsrc : 1 ≤ src) :
    ∀ (m k : Nat) (b : Buffer), k + m = BUFFER_WIDTH →
      src < b.chars.length →
      (b.chars.getD (src - 1) []).length = BUFFER_WIDTH →
      (b.chars.getD src []).length = BUFFER_WIDTH →
      (List.range' k m).foldl
          (fun b col => b.writeChar (src - 1) col (b.readChar src col)) b
        = ⟨b.chars.set (src - 1)
            ((b.chars.getD (src - 1) []).take k
              ++ (b.chars.getD src []).drop k)⟩ := by
  intro m
  induction m with
  | zero =>
    intro k b hk hsrclt hlen1 hlen2
    have hm1 : src - 1 < b.chars.length := by omega
    simp only [List.range'_zero, List.foldl_nil]
    rw [List.take_of_length_le (by omega),
      List.drop_eq_nil_of_le (by omega), List.append_nil,
      set_getD_self hm1]
  | succ m ih =>
    intro k b hk hsrclt hlen1 hlen2
    have hne : src - 1 ≠ src := by omega
    have hm1 : src - 1 < b.chars.length := by omega
    rw [List.range'_succ, List.foldl_cons,
      ih (k + 1) _ (by omega) (by rw [length_writeChar]; exact hsrclt)
        (by rw [getD_writeChar_self _ _ _ hm1, List.length_set]; exact hlen1)
        (by rw [getD_writeChar_ne _ _ _ hne]; exact hlen2)]
    rw [getD_writeChar_ne _ _ _ hne, getD_writeChar_self _ _ _ hm1,
      writeChar_chars, List.set_set,
      take_set_succ _ k _ (by omega)]
    have hk80 : k < (b.chars.getD src []).length := by omega
    have hread : b.readChar src k = (b.chars.getD src []).get ⟨k, hk80⟩ := by
      rw [Buffer.readChar, List.getD_eq_getElem _ _ hk80, List.get_eq_getElem]
    rw [hread, List.get_eq_getElem, List.append_assoc, List.singleton_append,
      ← List.drop_eq_getElem_cons hk80]

/-- The full column loop of the scroll for one source row: row `src - 1`
becomes a copy of row `src`. -/
lemma copy_row_full (src : Nat) (hsrc : 1 ≤ src) (b : Buffer)
    (h1 : src < b.chars.length)
    (h2 : (b.chars.getD (src - 1) []).length = BUFFER_WIDTH)
    (h3 : (b.chars.getD src []).length = BUFFER_WIDTH) :
    (List.range BUFFER_WIDTH).foldl
        (fun b col => b.writeChar (src - 1) col (b.readChar src col)) b
      = ⟨b.chars.set (src - 1) (b.chars.getD src [])⟩ := by
  rw [List.range_eq_range',
    copy_cols_spec src hsrc BUFFER_WIDTH 0 b (by omega) h1 h2 h3]
  simp

/-- The row loop of the scroll, solved: processing rows `k..24` turns the
grid into `rows 0..k-2, rows k..24, row 24 again`. -/
lemma copy_rows_spec :
    ∀ (m k : Nat) (b : Buffer), 1 ≤ k → k + m = BUFFER_HEIGHT → b.WF →
      (List.range' k m).foldl
          (fun b row =>
            (List.range BUFFER_WIDTH).foldl
              (fun b col => b.writeChar (row - 1) col (b.readChar row col)) b)
          b
        = ⟨b.chars.take (k - 1) ++ b.chars.drop k
            ++ [b.chars.getD (BUFFER_HEIGHT - 1) []]⟩ := by
  intro m
  induction m with
  | zero =>
    intro k b hk1 hk hwf
    obtain ⟨hlen, _⟩ := hwf
    have hk25 : k = BUFFER_HEIGHT := by omega
    subst hk25
    simp only [List.range'_zero, List.foldl_nil]
    have hlt : BUFFER_HEIGHT - 1 < b.chars.length := by omega
    have h1 : b.chars.drop BUFFER_HEIGHT = [] := List.drop_eq_nil_of_le (by omega)
    have h2 : b.chars.drop (BUFFER_HEIGHT - 1)
        = [b.chars.getD (BUFFER_HEIGHT - 1) []] := by
      rw [List.drop_eq_getElem_cons hlt, List.getD_eq_getElem _ _ hlt]
      have hsucc : BUFFER_HEIGHT - 1 + 1 = BUFFER_HEIGHT := by omega
      rw [hsucc, h1]
    rw [h1, List.append_nil, ← h2, List.take_append_drop]
  | succ m ih =>
    intro k b hk1 hk hwf
    obtain ⟨j, rfl⟩ : ∃ j, k = j + 1 := ⟨k - 1, by omega⟩
    obtain ⟨hlen, hrows⟩ := hwf
    have hjlt : j + 1 < BUFFER_HEIGHT := by omega
    have hjlen : j + 1 < b.chars.length := by omega
    have hjl : j < b.chars.length := by omega
    rw [List.range'_succ, List.foldl_cons,
      copy_row_full (j + 1) (by omega) b hjlen
        (by simpa using hrows j (by omega)) (hrows _ hjlt)]
    simp only [Nat.add_sub_cancel]
    set b1 : Buffer := ⟨b.chars.set j (b.chars.getD (j + 1) [])⟩ with hb1
    have hb1chars : b1.chars = b.chars.set j (b.chars.getD (j + 1) []) := by
      rw [hb1]
    have hb1wf : b1.WF := by
      refine ⟨by rw [hb1chars, List.length_set]; exact hlen, ?_⟩
      intro r hr
      rw [hb1chars]
      by_cases hrk : j = r
      · subst hrk
        rw [getD_set_self hjl]
        exact hrows _ hjlt
      · rw [getD_set_ne hrk]
        exact hrows _ hr
    rw [ih (j + 1 + 1) b1 (by omega) (by omega) hb1wf]
    simp only [Nat.add_sub_cancel]
    have htake : b1.chars.take (j + 1)
        = b.chars.take j ++ [b.chars.getD (j + 1) []] := by
      rw [hb1chars, take_set_succ _ j _ hjl]
    have hdrop : b1.chars.drop (j + 1 + 1) = b.chars.drop (j + 1 + 1) := by
      rw [hb1chars, List.drop_set, if_pos (by omega)]
    have hlast : b1.chars.getD (BUFFER_HEIGHT - 1) []
        = b.chars.getD (BUFFER_HEIGHT - 1) [] := by
      have hne : j ≠ BUFFER_HEIGHT - 1 := by omega
      rw [hb1chars, getD_set_ne hne]
    have hd : b.chars.drop (j + 1)
        = b.chars.getD (j + 1) [] :: b.chars.drop (j + 1 + 1) := by
      rw [List.drop_eq_getElem_cons hjlen, List.getD_eq_getElem _ _ hjlen]
    rw [htake, hdrop, hlast, hd]
    simp [List.append_assoc]

/-! ## new_line and write_byte, characterized -/

lemma BUFFER_HEIGHT_eq : BUFFER_HEIGHT = 25 := rfl

lemma BUFFER_WIDTH_eq : BUFFER_WIDTH = 80 := rfl

lemma getD_tail {α : Type _} (l : List α) (r : Nat) (d : α) :
    l.tail.getD r d = l.getD (r + 1) d := by
  rw [← List.drop_one, List.getD_eq_getElem?_getD, List.getElem?_drop,
    List.getD_eq_getElem?_getD, Nat.add_comm]

/-- Behavior of `new_line` when the cursor is not on the last row: only the cursor
moves. -/
lemma new_line_not_last (w : Writer) (h : w.current_row ≠ BUFFER_HEIGHT - 1) :
    w.new_line = { w with current_row := w.current_row + 1, current_col := 0 } := by
  rw [Writer.new_line, if_neg h]

/-- The buffer produced by `clear_row`, as the raw column fold. -/
lemma clear_row_buffer (w : Writer) (row : Nat) :
    (w.clear_row row).buffer
      = (List.range BUFFER_WIDTH).foldl
          (fun b col => b.writeChar row col ⟨0x20, w.default_color_code⟩)
          w.buffer := by
  unfold Writer.clear_row
  rfl

/-- The full column loop of `clear_row`, solved. -/
lemma clear_cols_full (blank : ScreenChar) (b : Buffer) (row : Nat)
    (hrow : row < b.chars.length)
    (hlen : (b.chars.getD row []).length = BUFFER_WIDTH) :
    (List.range BUFFER_WIDTH).foldl (fun b col => b.writeChar row col blank) b
      = ⟨b.chars.set row (List.replicate BUFFER_WIDTH blank)⟩ := by
  rw [List.range_eq_range',
    clear_cols_spec blank BUFFER_WIDTH 0 b row (by omega) hrow hlen]
  simp

lemma new_line_col (w : Writer) : (w.new_line).current_col = 0 := by
  unfold Writer.new_line
  rfl

lemma new_line_row (w : Writer) :
    (w.new_line).current_row
      = if w.current_row = BUFFER_HEIGHT - 1 then w.current_row
        else w.current_row + 1 := by
  unfold Writer.new_line
  split
  · unfold Writer.clear_row
    rfl
  · rfl

lemma new_line_attr (w : Writer) :
    (w.new_line).default_color_code = w.default_color_code := by
  unfold Writer.new_line
  split
  · unfold Writer.clear_row
    rfl
  · rfl

lemma new_line_row_lt (w : Writer) (h : w.current_row < BUFFER_HEIGHT) :
    (w.new_line).current_row < BUFFER_HEIGHT := by
  rw [new_line_row]
  split <;> omega

/-- Behavior of `new_line` off the last row leaves the buffer alone. -/
lemma new_line_buffer_not_last (w : Writer)
    (h : w.current_row ≠ BUFFER_HEIGHT - 1) :
    (w.new_line).buffer = w.buffer := by
  rw [new_line_not_last w h]

/-- Behavior of `new_line` on the last row: the grid loses its first row and gains a
blank row at the bottom. -/
lemma new_line_buffer_last (w : Writer) (hwf : w.buffer.WF)
    (h : w.current_row = BUFFER_HEIGHT - 1) :
    (w.new_line).buffer
      = ⟨w.buffer.chars.tail
          ++ [List.replicate BUFFER_WIDTH ⟨0x20, w.default_color_code⟩]⟩ := by
  obtain ⟨hlen, hrows⟩ := hwf
  have hdroplen : (w.buffer.chars.drop 1).length = BUFFER_HEIGHT - 1 := by
    rw [List.length_drop, hlen]
  unfold Writer.new_line
  rw [if_pos h]
  show (Writer.clear_row _ _).buffer = _
  rw [clear_row_buffer]
  rw [copy_rows_spec (BUFFER_HEIGHT - 1) 1 w.buffer (by omega)
    (by rw [BUFFER_HEIGHT_eq]) ⟨hlen, hrows⟩]
  show (List.range BUFFER_WIDTH).foldl _
      (⟨w.buffer.chars.take 0 ++ w.buffer.chars.drop 1
        ++ [w.buffer.chars.getD (BUFFER_HEIGHT - 1) []]⟩ : Buffer) = _
  simp only [List.take_zero, List.nil_append]
  have hgetlast : ((w.buffer.chars.drop 1
        ++ [w.buffer.chars.getD (BUFFER_HEIGHT - 1) []]).getD
          (BUFFER_HEIGHT - 1) [])
      = w.buffer.chars.getD (BUFFER_HEIGHT - 1) [] := by
    rw [List.getD_append_right _ _ _ _ (by omega), hdroplen, Nat.sub_self]
    rfl
  have hclen : (w.buffer.chars.drop 1
      ++ [w.buffer.chars.getD (BUFFER_HEIGHT - 1) []]).length
      = BUFFER_HEIGHT := by
    rw [List.length_append, hdroplen]
    simp [BUFFER_HEIGHT_eq]
  rw [show w.current_row = BUFFER_HEIGHT - 1 from h]
  rw [clear_cols_full _ _ _ (by rw [hclen]; rw [BUFFER_HEIGHT_eq]; omega)
    (by rw [hgetlast]; exact hrows _ (by rw [BUFFER_HEIGHT_eq]; omega))]
  have hset : (w.buffer.chars.drop 1
        ++ [w.buffer.chars.getD (BUFFER_HEIGHT - 1) []]).set (BUFFER_HEIGHT - 1)
          (List.replicate BUFFER_WIDTH ⟨0x20, w.default_color_code⟩)
      = w.buffer.chars.drop 1
        ++ [List.replicate BUFFER_WIDTH ⟨0x20, w.default_color_code⟩] := by
    rw [← hdroplen, set_append_length]
    rfl
  rw [hset, List.drop_one]

/-- Behavior of `new_line` on the last row, as a full record equation. -/
lemma new_line_last (w : Writer) (hwf : w.buffer.WF)
    (h : w.current_row = BUFFER_HEIGHT - 1) :
    w.new_line = { w with
      current_col := 0
      buffer := ⟨w.buffer.chars.tail
        ++ [List.replicate BUFFER_WIDTH ⟨0x20, w.default_color_code⟩]⟩ } := by
  ext1
  · rw [new_line_col]
  · rw [new_line_row, if_pos h]
  · rw [new_line_attr]
  · rw [new_line_buffer_last w hwf h]

lemma WF_new_line (w : Writer) (hwf : w.buffer.WF) : (w.new_line).buffer.WF := by
  by_cases h : w.current_row = BUFFER_HEIGHT - 1
  · rw [new_line_buffer_last w hwf h]
    obtain ⟨hlen, hrows⟩ := hwf
    constructor
    · simp only [List.length_append, List.length_tail, hlen, List.length_cons,
        List.length_nil]
      rw [BUFFER_HEIGHT_eq]
    · intro r hr
      by_cases hr24 : r < BUFFER_HEIGHT - 1
      · rw [List.getD_append _ _ _ _ (by rw [List.length_tail, hlen]; omega),
          getD_tail]
        exact hrows _ (by omega)
      · rw [List.getD_append_right _ _ _ _ (by rw [List.length_tail, hlen]; omega)]
        have hidx : r - (w.buffer.chars.tail.length) = 0 := by
          rw [List.length_tail, hlen]
          omega
        rw [hidx]
        simp
  · rw [new_line_buffer_not_last w h]
    exact hwf

/-- Behavior of `write_byte` on a newline byte is exactly `new_line`. -/
lemma write_byte_newline (w : Writer) : w.write_byte 0x0a = w.new_line := by
  rw [Writer.write_byte, if_pos rfl]

/-- Behavior of `write_byte` on a non-newline byte with room in the current row: place
the cell at the cursor and advance the column. -/
lemma write_byte_no_wrap (w : Writer) (b : Nat) (hb : b ≠ 0x0a)
    (hcol : w.current_col < BUFFER_WIDTH) :
    w.write_byte b
      = { w with
          buffer := w.buffer.writeChar w.current_row w.current_col
            ⟨b, w.default_color_code⟩
          current_col := w.current_col + 1 } := by
  rw [Writer.write_byte, if_neg hb, if_neg (by omega)]

/-- Behavior of `write_byte` on a non-newline byte with the column already past the
last column: wrap first (`new_line`), then place at column 0. -/
lemma write_byte_wrap (w : Writer) (b : Nat) (hb : b ≠ 0x0a)
    (hcol : BUFFER_WIDTH ≤ w.current_col) :
    w.write_byte b
      = { w.new_line with
          buffer := (w.new_line).buffer.writeChar (w.new_line).current_row 0
            ⟨b, (w.new_line).default_color_code⟩
          current_col := 1 } := by
  rw [Writer.write_byte, if_neg hb, if_pos hcol]
  rfl

/-! ## Straight-line runs of write_byte -/

lemma writeSeg_nil (row : List ScreenChar) (k attr : Nat) :
    writeSeg row k [] attr = row := rfl

lemma writeSeg_cons (row : List ScreenChar) (k b : Nat) (bs : List Nat)
    (attr : Nat) :
    writeSeg row k (b :: bs) attr
      = writeSeg (row.set k ⟨b, attr⟩) (k + 1) bs attr := rfl

lemma length_writeSeg (bs : List Nat) :
    ∀ (row : List ScreenChar) (k attr : Nat),
      (writeSeg row k bs attr).length = row.length := by
  induction bs with
  | nil => intro row k attr; rfl
  | cons b bs ih =>
    intro row k attr
    rw [writeSeg, ih, List.length_set]

lemma writeSeg_getD_lt (bs : List Nat) :
    ∀ (row : List ScreenChar) (k attr j : Nat) (d : ScreenChar), j < k →
      (writeSeg row k bs attr).getD j d = row.getD j d := by
  induction bs with
  | nil => intro row k attr j d _; rfl
  | cons b bs ih =>
    intro row k attr j d hj
    rw [writeSeg, ih _ _ _ _ _ (by omega), getD_set_ne (by omega)]

lemma writeSeg_getD (bs : List Nat) :
    ∀ (row : List ScreenChar) (k attr j : Nat) (d : ScreenChar),
      k + bs.length ≤ row.length → k ≤ j → j < k + bs.length →
      (writeSeg row k bs attr).getD j d = ⟨bs.getD (j - k) 0, attr⟩ := by
  induction bs with
  | nil =>
    intro row k attr j d _ hkj hjk
    simp only [List.length_nil] at hjk
    omega
  | cons b bs ih =>
    intro row k attr j d hlen hkj hjk
    rw [writeSeg]
    by_cases hj : j = k
    · subst hj
      rw [writeSeg_getD_lt bs _ _ _ _ _ (by omega),
        getD_set_self (by simp only [List.length_cons] at hlen; omega),
        Nat.sub_self]
      rfl
    · rw [ih _ (k + 1) _ _ _
        (by rw [List.length_set]; simp only [List.length_cons] at hlen; omega)
        (by omega)
        (by simp only [List.length_cons] at hjk; omega)]
      have hidx : j - k = (j - (k + 1)) + 1 := by omega
      rw [hidx, List.getD_cons_succ]

/-- A run of non-newline `write_byte` calls that fits in the current row:
the cursor advances by the number of bytes and the row gets the bytes
written from the starting column on. -/
lemma write_bytes_no_wrap (bs : List Nat) :
    ∀ (w : Writer), (∀ b ∈ bs, b ≠ 0x0a) →
      w.current_col + bs.length ≤ BUFFER_WIDTH →
      w.current_row < w.buffer.chars.length →
      bs.foldl Writer.write_byte w
        = { w with
            current_col := w.current_col + bs.length
            buffer := ⟨w.buffer.chars.set w.current_row
              (writeSeg (w.buffer.chars.getD w.current_row [])
                w.current_col bs w.default_color_code)⟩ } := by
  induction bs with
  | nil =>
    intro w _ _ h3
    simp only [List.foldl_nil, List.length_nil, Nat.add_zero, writeSeg_nil]
    rw [set_getD_self h3]
  | cons b bs ih =>
    intro w h1 h2 h3
    simp only [List.length_cons] at h2
    rw [List.foldl_cons,
      write_byte_no_wrap w b (h1 b (by simp)) (by omega)]
    rw [ih _ (fun x hx => h1 x (by simp [hx]))
      (by dsimp only; omega)
      (by dsimp only; rw [writeChar_chars, List.length_set]; exact h3)]
    ext1 <;> dsimp only
    · simp only [List.length_cons]
      omega
    · rw [writeChar_chars, getD_set_self h3, List.set_set, writeSeg_cons]

/-! ## Cursor and well-formedness invariants -/

lemma write_byte_row_lt (w : Writer) (b : Nat)
    (h : w.current_row < BUFFER_HEIGHT) :
    (w.write_byte b).current_row < BUFFER_HEIGHT := by
  by_cases hb : b = 0x0a
  · subst hb
    rw [write_byte_newline]
    exact new_line_row_lt w h
  · by_cases hcol : BUFFER_WIDTH ≤ w.current_col
    · rw [write_byte_wrap w b hb hcol]
      exact new_line_row_lt w h
    · rw [write_byte_no_wrap w b hb (by omega)]
      exact h

lemma write_byte_col_le (w : Writer) (b : Nat) :
    (w.write_byte b).current_col ≤ BUFFER_WIDTH := by
  by_cases hb : b = 0x0a
  · subst hb
    rw [write_byte_newline, new_line_col]
    omega
  · by_cases hcol : BUFFER_WIDTH ≤ w.current_col
    · rw [write_byte_wrap w b hb hcol]
      show 1 ≤ BUFFER_WIDTH
      rw [BUFFER_WIDTH_eq]
      omega
    · rw [write_byte_no_wrap w b hb (by omega)]
      show w.current_col + 1 ≤ BUFFER_WIDTH
      omega

lemma write_byte_attr (w : Writer) (b : Nat) :
    (w.write_byte b).default_color_code = w.default_color_code := by
  by_cases hb : b = 0x0a
  · subst hb
    rw [write_byte_newline, new_line_attr]
  · by_cases hcol : BUFFER_WIDTH ≤ w.current_col
    · rw [write_byte_wrap w b hb hcol]
      exact new_line_attr w
    · rw [write_byte_no_wrap w b hb (by omega)]

lemma WF_write_byte (w : Writer) (b : Nat) (hwf : w.buffer.WF) :
    (w.write_byte b).buffer.WF := by
  by_cases hb : b = 0x0a
  · subst hb
    rw [write_byte_newline]
    exact WF_new_line w hwf
  · by_cases hcol : BUFFER_WIDTH ≤ w.current_col
    · rw [write_byte_wrap w b hb hcol]
      exact WF_writeChar _ _ _ (WF_new_line w hwf)
    · rw [write_byte_no_wrap w b hb (by omega)]
      exact WF_writeChar _ _ _ hwf

/-! ## write_string as substitution plus write_byte -/

/-- Lemma: `write_string` is `write_byte` over the substituted byte stream. -/
lemma write_string_eq_map (w : Writer) (s : List Nat) :
    w.write_string s = (s.map substituteByte).foldl Writer.write_byte w := by
  rw [Writer.write_string, List.foldl_map]
  congr 1
  funext w b
  rw [substituteByte]
  split
  · rfl
  · rfl

lemma foldl_write_byte_inv (P : Writer → Prop)
    (hP : ∀ w b, P w → P (w.write_byte b)) :
    ∀ (s : List Nat) (w : Writer), P w → P (s.foldl Writer.write_byte w) := by
  intro s
  induction s with
  | nil => intro w h; exact h
  | cons b bs ih =>
    intro w h
    rw [List.foldl_cons]
    exact ih _ (hP w b h)

lemma write_string_inv (P : Writer → Prop)
    (hP : ∀ w b, P w → P (w.write_byte b)) (w : Writer) (s : List Nat)
    (h : P w) : P (w.write_string s) := by
  rw [write_string_eq_map]
  exact foldl_write_byte_inv P hP _ w h

/-! ## Cursor invariant under arbitrary call sequences -/

lemma applyOp_inv (a : Nat) (w : Writer) (op : ConsoleOp)
    (h : w.current_row < BUFFER_HEIGHT ∧ w.current_col ≤ BUFFER_WIDTH
      ∧ w.default_color_code = a) :
    (w.applyOp op).current_row < BUFFER_HEIGHT
      ∧ (w.applyOp op).current_col ≤ BUFFER_WIDTH
      ∧ (w.applyOp op).default_color_code = a := by
  obtain ⟨h1, h2, h3⟩ := h
  cases op with
  | byteOp b =>
    refine ⟨write_byte_row_lt w b h1, write_byte_col_le w b, ?_⟩
    rw [show w.applyOp (.byteOp b) = w.write_byte b from rfl, write_byte_attr]
    exact h3
  | stringOp s =>
    exact write_string_inv
      (fun w => w.current_row < BUFFER_HEIGHT
        ∧ w.current_col ≤ BUFFER_WIDTH ∧ w.default_color_code = a)
      (fun w b hw =>
        ⟨write_byte_row_lt w b hw.1, write_byte_col_le w b,
          by rw [write_byte_attr]; exact hw.2.2⟩)
      w s ⟨h1, h2, h3⟩

lemma foldl_applyOp_inv (a : Nat) :
    ∀ (ops : List ConsoleOp) (w : Writer),
      (w.current_row < BUFFER_HEIGHT ∧ w.current_col ≤ BUFFER_WIDTH
        ∧ w.default_color_code = a) →
      (ops.foldl Writer.applyOp w).current_row < BUFFER_HEIGHT
        ∧ (ops.foldl Writer.applyOp w).current_col ≤ BUFFER_WIDTH
        ∧ (ops.foldl Writer.applyOp w).default_color_code = a := by
  intro ops
  induction ops with
  | nil => intro w h; exact h
  | cons op ops ih =>
    intro w h
    rw [List.foldl_cons]
    exact ih _ (applyOp_inv a w op h)

/-! ## The counted methods project onto the originals -/

lemma clear_cols_counted_spec (blank : ScreenChar) (row : Nat) :
    ∀ (cols : List Nat) (q : Writer × Nat),
      cols.foldl (fun q col => writeCharCounted q row col blank) q
        = (Writer.mk q.1.current_col q.1.current_row q.1.default_color_code
             (cols.foldl (fun b col => b.writeChar row col blank) q.1.buffer),
           q.2 + cols.length) := by
  intro cols
  induction cols with
  | nil => intro q; rfl
  | cons c cols ih =>
    intro q
    rw [List.foldl_cons, List.foldl_cons, ih]
    refine Prod.ext rfl ?_
    show q.2 + 1 + cols.length = q.2 + (c :: cols).length
    rw [List.length_cons]
    omega

lemma copy_cols_counted_spec (src : Nat) :
    ∀ (cols : List Nat) (q : Writer × Nat),
      cols.foldl (fun q col =>
          writeCharCounted q (src - 1) col (q.1.buffer.readChar src col)) q
        = (Writer.mk q.1.current_col q.1.current_row q.1.default_color_code
             (cols.foldl
               (fun b col => b.writeChar (src - 1) col (b.readChar src col))
               q.1.buffer),
           q.2 + cols.length) := by
  intro cols
  induction cols with
  | nil => intro q; rfl
  | cons c cols ih =>
    intro q
    rw [List.foldl_cons, List.foldl_cons, ih]
    refine Prod.ext rfl ?_
    show q.2 + 1 + cols.length = q.2 + (c :: cols).length
    rw [List.length_cons]
    omega

lemma copy_rows_counted_spec :
    ∀ (rows : List Nat) (q : Writer × Nat),
      rows.foldl (fun q row =>
          (List.range BUFFER_WIDTH).foldl
            (fun q col =>
              writeCharCounted q (row - 1) col (q.1.buffer.readChar row col))
            q) q
        = (Writer.mk q.1.current_col q.1.current_row q.1.default_color_code
             (rows.foldl
               (fun b row =>
                 (List.range BUFFER_WIDTH).foldl
                   (fun b col => b.writeChar (row - 1) col (b.readChar row col))
                   b) q.1.buffer),
           q.2 + rows.length * BUFFER_WIDTH) := by
  intro rows
  induction rows with
  | nil => intro q; rfl
  | cons r rows ih =>
    intro q
    rw [List.foldl_cons, List.foldl_cons, copy_cols_counted_spec r, ih]
    refine Prod.ext rfl ?_
    show q.2 + (List.range BUFFER_WIDTH).length + rows.length * BUFFER_WIDTH
      = q.2 + (r :: rows).length * BUFFER_WIDTH
    rw [List.length_range, List.length_cons, Nat.succ_mul]
    omega

/-- The counted `new_line` is the original plus 2000 grid writes when it
scrolls (24 rows copied cell-by-cell plus 80 blank writes) and none
otherwise. -/
lemma new_line_counted_spec (q : Writer × Nat) :
    Writer.new_line_counted q
      = (q.1.new_line,
         q.2 + (if q.1.current_row = BUFFER_HEIGHT - 1
                then (BUFFER_HEIGHT - 1) * BUFFER_WIDTH + BUFFER_WIDTH
                else 0)) := by
  by_cases h : q.1.current_row = BUFFER_HEIGHT - 1
  · rw [Writer.new_line_counted, Writer.new_line, if_pos h, if_pos h,
      if_pos h, copy_rows_counted_spec, Writer.clear_row_counted,
      clear_cols_counted_spec]
    refine Prod.ext rfl ?_
    show q.2 + (List.range' 1 (BUFFER_HEIGHT - 1)).length * BUFFER_WIDTH
        + (List.range BUFFER_WIDTH).length
      = q.2 + ((BUFFER_HEIGHT - 1) * BUFFER_WIDTH + BUFFER_WIDTH)
    rw [List.length_range', List.length_range]
    omega
  · rw [Writer.new_line_counted, Writer.new_line, if_neg h, if_neg h,
      if_neg h]
    rfl

/-- The counted `write_byte` is the original plus: 2000 grid writes if it
triggers a scroll (a newline or a wrap while on the last row), plus one
grid write for the glyph when the byte is not a newline. -/
lemma write_byte_counted_spec (q : Writer × Nat) (b : Nat) :
    Writer.write_byte_counted q b
      = (q.1.write_byte b,
         q.2 + (if (b = 0x0a ∨ BUFFER_WIDTH ≤ q.1.current_col)
                    ∧ q.1.current_row = BUFFER_HEIGHT - 1
                then (BUFFER_HEIGHT - 1) * BUFFER_WIDTH + BUFFER_WIDTH
                else 0)
             + (if b = 0x0a then 0 else 1)) := by
  by_cases hb : b = 0x0a
  · rw [Writer.write_byte_counted, if_pos hb, new_line_counted_spec, hb,
      write_byte_newline]
    refine Prod.ext rfl ?_
    by_cases hr : q.1.current_row = BUFFER_HEIGHT - 1 <;>
      simp [hr]
  · rw [Writer.write_byte_counted, if_neg hb]
    by_cases hcol : BUFFER_WIDTH ≤ q.1.current_col
    · rw [if_pos hcol, new_line_counted_spec,
      write_byte_wrap q.1 b hb hcol]
      refine Prod.ext ?_ ?_
      · show { q.1.new_line with
            buffer := (q.1.new_line).buffer.writeChar
              (q.1.new_line).current_row (q.1.new_line).current_col
              ⟨b, (q.1.new_line).default_color_code⟩
            current_col := (q.1.new_line).current_col + 1 }
          = _
        rw [new_line_col]
      · show q.2 + (if q.1.current_row = BUFFER_HEIGHT - 1
              then (BUFFER_HEIGHT - 1) * BUFFER_WIDTH + BUFFER_WIDTH else 0)
              + 1 = _
        by_cases hr : q.1.current_row = BUFFER_HEIGHT - 1 <;>
          simp [hr, hb, hcol]
    · rw [if_neg hcol, write_byte_no_wrap q.1 b hb (by omega)]
      refine Prod.ext rfl ?_
      show q.2 + 1 = _
      simp [hb, hcol]

/-- The writer component of the counted `write_string` is the original
`write_string`: the instrumentation is faithful. -/
lemma write_string_counted_fst :
    ∀ (s : List Nat) (q : Writer × Nat),
      (Writer.write_string_counted q s).1 = q.1.write_string s := by
  intro s
  induction s with
  | nil => intro q; rfl
  | cons b bs ih =>
    intro q
    show (Writer.write_string_counted
        (if (0x20 ≤ b ∧ b ≤ 0x7e) ∨ b = 0x0a then Writer.write_byte_counted q b
         else Writer.write_byte_counted q 0xfe) bs).1
      = Writer.write_string
          (if (0x20 ≤ b ∧ b ≤ 0x7e) ∨ b = 0x0a then q.1.write_byte b
           else q.1.write_byte 0xfe) bs
    rw [ih]
    congr 1
    split
    · rw [write_byte_counted_spec]
    · rw [write_byte_counted_spec]

/-! ## The _start scenario, line by line -/

lemma lineBytes_split (i : Nat) : lineBytes i = lineTextBytes i ++ [0x0a] := by
  rw [lineBytes, lineTextBytes, List.append_assoc]

lemma lineTextBytes_printable :
    ∀ i, i < 40 → ∀ b ∈ lineTextBytes i, 0x20 ≤ b ∧ b ≤ 0x7e := by decide

lemma lineTextBytes_len :
    ∀ i, i < 40 → (lineTextBytes i).length ≤ BUFFER_WIDTH := by decide

lemma lineRow_len : ∀ i, i < 40 → (lineRow i).length = BUFFER_WIDTH := by
  decide

lemma writeSeg_blank : ∀ i, i < 40 →
    writeSeg blankRow 0 (lineTextBytes i) initialColorCode = lineRow i := by
  decide

lemma map_substituteByte_id (s : List Nat)
    (h : ∀ b ∈ s, (0x20 ≤ b ∧ b ≤ 0x7e) ∨ b = 0x0a) :
    s.map substituteByte = s := by
  have hid : ∀ b ∈ s, substituteByte b = id b := by
    intro b hb
    rw [substituteByte, if_pos (h b hb)]
    rfl
  rw [List.map_congr_left hid, List.map_id]

lemma getD_map_range' (f : Nat → List ScreenChar) (s n r : Nat) (h : r < n) :
    ((List.range' s n).map f).getD r [] = f (s + r) := by
  rw [List.getD_eq_getElem _ _
      (by rw [List.length_map, List.length_range']; exact h),
    List.getElem_map, List.getElem_range', Nat.one_mul]

/-- Printing one full line `"line {i}\n"` at column 0 onto a blank current
row: the glyphs fill the row, then the newline fires. -/
lemma write_line_fill (w : Writer) (i : Nat) (hi : i < 40)
    (hcol : w.current_col = 0)
    (hattr : w.default_color_code = initialColorCode)
    (hrow : w.current_row < w.buffer.chars.length)
    (hblank : w.buffer.chars.getD w.current_row [] = blankRow) :
    w.write_string (lineBytes i)
      = Writer.write_byte { w with
          current_col := (lineTextBytes i).length
          buffer := ⟨w.buffer.chars.set w.current_row (lineRow i)⟩ } 0x0a := by
  have hp : ∀ b ∈ lineBytes i, (0x20 ≤ b ∧ b ≤ 0x7e) ∨ b = 0x0a := by
    intro b hb
    rw [lineBytes_split] at hb
    rcases List.mem_append.1 hb with h | h
    · exact Or.inl (lineTextBytes_printable i hi b h)
    · rw [List.mem_singleton] at h
      exact Or.inr h
  rw [write_string_eq_map, map_substituteByte_id _ hp, lineBytes_split,
    List.foldl_append, List.foldl_cons, List.foldl_nil]
  congr 1
  rw [write_bytes_no_wrap (lineTextBytes i) w
    (fun b hb => by have := lineTextBytes_printable i hi b hb; omega)
    (by rw [hcol]; have := lineTextBytes_len i hi; omega)
    hrow]
  rw [hcol, hblank, hattr, writeSeg_blank i hi, Nat.zero_add]

/-- One line of phase 1 (`n < 24`): the cursor just moves down. -/
lemma phase1_step (n : Nat) (hn : n < BUFFER_HEIGHT - 1) :
    (phase1Writer n).write_string (lineBytes n) = phase1Writer (n + 1) := by
  have hn40 : n < 40 := by rw [BUFFER_HEIGHT_eq] at hn; omega
  have hlen : (phase1Writer n).buffer.chars.length = BUFFER_HEIGHT := by
    show ((List.range' 0 n).map lineRow
      ++ List.replicate (BUFFER_HEIGHT - n) blankRow).length = BUFFER_HEIGHT
    rw [List.length_append, List.length_map, List.length_range',
      List.length_replicate]
    omega
  have hsub : BUFFER_HEIGHT - n = (BUFFER_HEIGHT - n - 1) + 1 := by omega
  have hmaplen : ((List.range' 0 n).map lineRow).length = n := by
    rw [List.length_map, List.length_range']
  rw [write_line_fill _ n hn40 rfl rfl
    (by show n < (phase1Writer n).buffer.chars.length; rw [hlen]; omega)
    ?hblank]
  case hblank =>
    show ((List.range' 0 n).map lineRow
      ++ List.replicate (BUFFER_HEIGHT - n) blankRow).getD n [] = blankRow
    rw [List.getD_append_right _ _ _ _ (by omega), hmaplen, Nat.sub_self,
      hsub, List.replicate_succ, List.getD_cons_zero]
  rw [write_byte_newline, new_line_not_last _ (by show n ≠ BUFFER_HEIGHT - 1; omega)]
  have hchars : ((List.range' 0 n).map lineRow
        ++ List.replicate (BUFFER_HEIGHT - n) blankRow).set n (lineRow n)
      = (List.range' 0 (n + 1)).map lineRow
        ++ List.replicate (BUFFER_HEIGHT - (n + 1)) blankRow := by
    rw [List.set_append, if_neg (by rw [hmaplen]; omega), hmaplen,
      Nat.sub_self, hsub, List.replicate_succ, List.set_cons_zero,
      List.range'_1_concat, List.map_append, List.append_assoc,
      Nat.zero_add, List.map_singleton, List.singleton_append, Nat.sub_sub]
  ext1 <;> dsimp only [phase1Writer]
  rw [hchars]

/-- Phase 1 of the `_start` scenario: after lines `0..n-1` (for `n ≤ 24`)
the grid holds those lines in rows `0..n-1` above blank rows. -/
lemma phase1_spec : ∀ n, n ≤ BUFFER_HEIGHT - 1 →
    (List.range n).foldl (fun w i => w.write_string (lineBytes i))
        initialWriter
      = phase1Writer n := by
  intro n
  induction n with
  | zero => intro _; rfl
  | succ n ih =>
    intro hn
    rw [List.range_succ, List.foldl_append, ih (by omega), List.foldl_cons,
      List.foldl_nil]
    exact phase1_step n (by rw [BUFFER_HEIGHT_eq] at *; omega)

/-- One line of phase 2: printing line `24 + m` onto the blank last row and
scrolling. -/
lemma phase2_step (m : Nat) (hm : m < 16) :
    (phase2Writer m).write_string (lineBytes (24 + m)) = phase2Writer (m + 1) := by
  have hi40 : 24 + m < 40 := by omega
  have hmaplen :
      ((List.range' m (BUFFER_HEIGHT - 1)).map lineRow).length
        = BUFFER_HEIGHT - 1 := by
    rw [List.length_map, List.length_range']
  have hlen : (phase2Writer m).buffer.chars.length = BUFFER_HEIGHT := by
    show ((List.range' m (BUFFER_HEIGHT - 1)).map lineRow
      ++ [blankRow]).length = BUFFER_HEIGHT
    rw [List.length_append, hmaplen]
    simp [BUFFER_HEIGHT_eq]
  rw [write_line_fill _ (24 + m) hi40 rfl rfl
    (by show BUFFER_HEIGHT - 1 < (phase2Writer m).buffer.chars.length
        rw [hlen, BUFFER_HEIGHT_eq]
        omega)
    ?hblank]
  case hblank =>
    show ((List.range' m (BUFFER_HEIGHT - 1)).map lineRow
      ++ [blankRow]).getD (BUFFER_HEIGHT - 1) [] = blankRow
    rw [List.getD_append_right _ _ _ _ (by omega), hmaplen, Nat.sub_self,
      List.getD_cons_zero]
  have hchars : ((List.range' m (BUFFER_HEIGHT - 1)).map lineRow
        ++ [blankRow]).set (BUFFER_HEIGHT - 1) (lineRow (24 + m))
      = (List.range' m (BUFFER_HEIGHT - 1)).map lineRow
        ++ [lineRow (24 + m)] := by
    rw [List.set_append, if_neg (by rw [hmaplen]; omega), hmaplen,
      Nat.sub_self, List.set_cons_zero]
  have hwf0 : (⟨(List.range' m (BUFFER_HEIGHT - 1)).map lineRow
      ++ [lineRow (24 + m)]⟩ : Buffer).WF := by
    constructor
    · show ((List.range' m (BUFFER_HEIGHT - 1)).map lineRow
        ++ [lineRow (24 + m)]).length = BUFFER_HEIGHT
      rw [List.length_append, hmaplen]
      simp [BUFFER_HEIGHT_eq]
    · intro r hr
      show (((List.range' m (BUFFER_HEIGHT - 1)).map lineRow
        ++ [lineRow (24 + m)]).getD r []).length = BUFFER_WIDTH
      by_cases hr24 : r < BUFFER_HEIGHT - 1
      · rw [List.getD_append _ _ _ _ (by omega), getD_map_range' _ _ _ _ hr24]
        exact lineRow_len (m + r) (by rw [BUFFER_HEIGHT_eq] at hr24; omega)
      · rw [List.getD_append_right _ _ _ _ (by omega), hmaplen,
          show r - (BUFFER_HEIGHT - 1) = 0 from by omega,
          List.getD_cons_zero]
        exact lineRow_len (24 + m) hi40
  have hwf : (Writer.mk (lineTextBytes (24 + m)).length
      (phase2Writer m).current_row (phase2Writer m).default_color_code
      ⟨(phase2Writer m).buffer.chars.set (phase2Writer m).current_row
        (lineRow (24 + m))⟩).buffer.WF := by
    show (⟨((List.range' m (BUFFER_HEIGHT - 1)).map lineRow
      ++ [blankRow]).set (BUFFER_HEIGHT - 1) (lineRow (24 + m))⟩ : Buffer).WF
    rw [hchars]
    exact hwf0
  rw [write_byte_newline, new_line_last _ hwf rfl]
  ext1 <;> dsimp only [phase2Writer]
  rw [hchars, show BUFFER_HEIGHT - 1 = 24 from rfl,
    List.range'_succ m 23 1, List.map_cons, List.cons_append, List.tail_cons,
    show (List.range' (m + 1) 24) = List.range' (m + 1) 23 ++ [m + 1 + 23]
      from List.range'_1_concat (m + 1) 23,
    List.map_append, List.map_singleton,
    show m + 1 + 23 = 24 + m from by omega,
    List.append_assoc, List.singleton_append]
  rw [List.append_assoc]
  rfl

/-- Phase 2 of the `_start` scenario: each further line scrolls the grid by
one row. -/
lemma phase2_spec : ∀ k, k ≤ 16 →
    (List.range' 24 k).foldl (fun w i => w.write_string (lineBytes i))
        (phase2Writer 0)
      = phase2Writer k := by
  intro k
  induction k with
  | zero => intro _; rfl
  | succ k ih =>
    intro hk
    rw [List.range'_1_concat, List.foldl_append, ih (by omega),
      List.foldl_cons, List.foldl_nil]
    exact phase2_step k (by omega)

/-! ## The claims -/

/-- C1: for a writer whose `current_row` equals `height-1` (the last row,
24), writing a newline byte shifts every row's contents up by one — the
former column-by-column contents of rows 1..height-1 become the contents of
rows 0..height-2, row 0's prior contents are lost — then fills the last row
with blank cells carrying `default_color_code`; `current_row` is left
unchanged at the last row and `current_col` is reset to 0. -/
theorem claim_C1 (w : Writer) (hwf : w.buffer.WF)
    (h : w.current_row = BUFFER_HEIGHT - 1) :
    (∀ r c, r + 1 < BUFFER_HEIGHT → c < BUFFER_WIDTH →
      (w.write_byte 0x0a).buffer.readChar r c = w.buffer.readChar (r + 1) c)
    ∧ (∀ c, c < BUFFER_WIDTH →
      (w.write_byte 0x0a).buffer.readChar (BUFFER_HEIGHT - 1) c
        = ⟨0x20, w.default_color_code⟩)
    ∧ (w.write_byte 0x0a).current_row = BUFFER_HEIGHT - 1
    ∧ (w.write_byte 0x0a).current_col = 0 := by
  have hb := new_line_buffer_last w hwf h
  obtain ⟨hlen, hrows⟩ := hwf
  refine ⟨?_, ?_, ?_, ?_⟩
  · intro r c hr hc
    rw [write_byte_newline, hb, Buffer.readChar, Buffer.readChar,
      List.getD_append _ _ _ _ (by rw [List.length_tail, hlen]; omega),
      getD_tail]
  · intro c hc
    rw [write_byte_newline, hb, Buffer.readChar,
      List.getD_append_right _ _ _ _ (by rw [List.length_tail, hlen])]
    have hidx : BUFFER_HEIGHT - 1 - w.buffer.chars.tail.length = 0 := by
      rw [List.length_tail, hlen]
      omega
    rw [hidx, List.getD_cons_zero, List.getD_eq_getElem?_getD,
      List.getElem?_replicate, if_pos hc]
    rfl
  · rw [write_byte_newline, new_line_row, if_pos h, h]
  · rw [write_byte_newline, new_line_col]

/-- C1, applied: a concrete 25x80 writer with pairwise distinct cells and
the cursor on the last row. -/
theorem claim_C1_witness :
    (∀ r c, r + 1 < BUFFER_HEIGHT → c < BUFFER_WIDTH →
      ((⟨5, 24, 7, ⟨(List.range BUFFER_HEIGHT).map (fun r =>
          (List.range BUFFER_WIDTH).map (fun c => ⟨r * 100 + c, 7⟩))⟩⟩ :
            Writer).write_byte 0x0a).buffer.readChar r c
        = (⟨5, 24, 7, ⟨(List.range BUFFER_HEIGHT).map (fun r =>
          (List.range BUFFER_WIDTH).map (fun c => ⟨r * 100 + c, 7⟩))⟩⟩ :
            Writer).buffer.readChar (r + 1) c)
    ∧ (∀ c, c < BUFFER_WIDTH →
      ((⟨5, 24, 7, ⟨(List.range BUFFER_HEIGHT).map (fun r =>
          (List.range BUFFER_WIDTH).map (fun c => ⟨r * 100 + c, 7⟩))⟩⟩ :
            Writer).write_byte 0x0a).buffer.readChar (BUFFER_HEIGHT - 1) c
        = ⟨0x20, 7⟩)
    ∧ ((⟨5, 24, 7, ⟨(List.range BUFFER_HEIGHT).map (fun r =>
          (List.range BUFFER_WIDTH).map (fun c => ⟨r * 100 + c, 7⟩))⟩⟩ :
            Writer).write_byte 0x0a).current_row = BUFFER_HEIGHT - 1
    ∧ ((⟨5, 24, 7, ⟨(List.range BUFFER_HEIGHT).map (fun r =>
          (List.range BUFFER_WIDTH).map (fun c => ⟨r * 100 + c, 7⟩))⟩⟩ :
            Writer).write_byte 0x0a).current_col = 0 :=
  claim_C1 _ (by decide) rfl

/-- C2: for a writer constructed at (0,0), after any sequence of
`write_byte` and `write_string` calls, `current_row` is always a valid grid
row (`< height`), `current_col` is always at most `width`, and
`default_color_code` keeps its construction value. -/
theorem claim_C2 (a : Nat) (buf : Buffer) (ops : List ConsoleOp) :
    (ops.foldl Writer.applyOp ⟨0, 0, a, buf⟩).current_row < BUFFER_HEIGHT
      ∧ (ops.foldl Writer.applyOp ⟨0, 0, a, buf⟩).current_col ≤ BUFFER_WIDTH
      ∧ (ops.foldl Writer.applyOp ⟨0, 0, a, buf⟩).default_color_code = a :=
  foldl_applyOp_inv a ops _
    ⟨by show (0:Nat) < BUFFER_HEIGHT; rw [BUFFER_HEIGHT_eq]; omega,
      by show (0:Nat) ≤ BUFFER_WIDTH; omega, rfl⟩

/-- C4: `write_string` forwards printable ASCII (0x20-0x7E) and newline
bytes to `write_byte` unchanged, and forwards exactly the placeholder 0xFE
for every other byte: it is `write_byte` iterated over the substituted
stream, where the substitution fixes printable/newline bytes and maps
everything else to 0xFE. -/
theorem claim_C4 :
    (∀ (w : Writer) (s : List Nat),
      w.write_string s = (s.map substituteByte).foldl Writer.write_byte w)
    ∧ (∀ b, ((0x20 ≤ b ∧ b ≤ 0x7e) ∨ b = 0x0a) → substituteByte b = b)
    ∧ (∀ b, ¬((0x20 ≤ b ∧ b ≤ 0x7e) ∨ b = 0x0a) → substituteByte b = 0xfe) := by
  refine ⟨write_string_eq_map, ?_, ?_⟩
  · intro b hb
    rw [substituteByte, if_pos hb]
  · intro b hb
    rw [substituteByte, if_neg hb]

/-- C4, applied: a string with a printable byte, a newline and a control
byte. -/
theorem claim_C4_witness :
    (initialWriter.write_string [0x41, 0x0a, 0x05]
      = ([0x41, 0x0a, 0x05].map substituteByte).foldl Writer.write_byte
          initialWriter)
    ∧ substituteByte 0x41 = 0x41 ∧ substituteByte 0x0a = 0x0a
    ∧ substituteByte 0x05 = 0xfe :=
  ⟨claim_C4.1 initialWriter [0x41, 0x0a, 0x05],
    claim_C4.2.1 0x41 (by decide), claim_C4.2.1 0x0a (by decide),
    claim_C4.2.2 0x05 (by decide)⟩

/-- C6: writing a newline byte when `current_row < height-1` leaves the
contents of every grid cell unchanged, increments `current_row` by exactly
1, and resets `current_col` to 0; no data movement occurs in this branch. -/
theorem claim_C6 (w : Writer) (h : w.current_row < BUFFER_HEIGHT - 1) :
    w.write_byte 0x0a
      = { w with current_row := w.current_row + 1, current_col := 0 } := by
  rw [write_byte_newline, new_line_not_last w (by omega)]

/-- C6, applied: the fresh writer at row 0. -/
theorem claim_C6_witness :
    initialWriter.write_byte 0x0a
      = { initialWriter with current_row := 1, current_col := 0 } :=
  claim_C6 initialWriter (by decide)

/-- C7: clearing row `row` fills every column of that row with the blank
cell carrying `default_color_code`, and no cell in any other row is
modified. -/
theorem claim_C7 (w : Writer) (row : Nat) (hrow : row < BUFFER_HEIGHT)
    (hwf : w.buffer.WF) :
    (∀ c, c < BUFFER_WIDTH →
      (w.clear_row row).buffer.readChar row c = ⟨0x20, w.default_color_code⟩)
    ∧ (∀ r c, r ≠ row →
      (w.clear_row row).buffer.readChar r c = w.buffer.readChar r c) := by
  obtain ⟨hlen, hrows⟩ := hwf
  have hchars : (w.clear_row row).buffer
      = ⟨w.buffer.chars.set row
          (List.replicate BUFFER_WIDTH ⟨0x20, w.default_color_code⟩)⟩ := by
    rw [clear_row_buffer,
      clear_cols_full _ _ _ (by omega) (hrows row hrow)]
  constructor
  · intro c hc
    rw [hchars, Buffer.readChar, getD_set_self (by omega),
      List.getD_eq_getElem?_getD, List.getElem?_replicate, if_pos hc]
    rfl
  · intro r c hr
    rw [hchars, Buffer.readChar, Buffer.readChar,
      getD_set_ne (fun hh => hr hh.symm)]

/-- C7, applied: clearing row 3 of a concrete 25x80 grid. -/
theorem claim_C7_witness :
    (∀ c, c < BUFFER_WIDTH →
      ((⟨2, 9, 7, ⟨(List.range BUFFER_HEIGHT).map (fun r =>
          (List.range BUFFER_WIDTH).map (fun c => ⟨r * 100 + c, 7⟩))⟩⟩ :
            Writer).clear_row 3).buffer.readChar 3 c = ⟨0x20, 7⟩)
    ∧ (∀ r c, r ≠ 3 →
      ((⟨2, 9, 7, ⟨(List.range BUFFER_HEIGHT).map (fun r =>
          (List.range BUFFER_WIDTH).map (fun c => ⟨r * 100 + c, 7⟩))⟩⟩ :
            Writer).clear_row 3).buffer.readChar r c
        = (⟨2, 9, 7, ⟨(List.range BUFFER_HEIGHT).map (fun r =>
          (List.range BUFFER_WIDTH).map (fun c => ⟨r * 100 + c, 7⟩))⟩⟩ :
            Writer).buffer.readChar r c) :=
  claim_C7 _ 3 (by rw [BUFFER_HEIGHT_eq]; omega) (by decide)

/-- C9: when the status-port byte has bit 0 clear, `disable_cursor` writes
to ports 0x3B4 (address) and 0x3B5 (data); when bit 0 is set, to 0x3D4 and
0x3D5; in both cases it writes index byte 0x0A to the address port first
and then data byte 0x10 (bit 4 set) to the data port, in that order. -/
theorem claim_C9 (misc_out : Nat) :
    (misc_out &&& 1 = 0 →
      disable_cursor misc_out = [⟨0x3b4, 0x0a⟩, ⟨0x3b5, 0x10⟩])
    ∧ (misc_out &&& 1 = 1 →
      disable_cursor misc_out = [⟨0x3d4, 0x0a⟩, ⟨0x3d5, 0x10⟩]) := by
  constructor
  · intro h
    rw [disable_cursor]
    rw [if_pos h, if_pos h]
    rfl
  · intro h
    rw [disable_cursor]
    rw [if_neg (by omega), if_neg (by omega)]
    rfl

/-- C9, applied: status bytes 0xE2 (bit 0 clear, color-register case per the
I/OAS convention of the source comments) and 0xE3 (bit 0 set). -/
theorem claim_C9_witness :
    disable_cursor 0xe2 = [⟨0x3b4, 0x0a⟩, ⟨0x3b5, 0x10⟩]
      ∧ disable_cursor 0xe3 = [⟨0x3d4, 0x0a⟩, ⟨0x3d5, 0x10⟩] :=
  ⟨(claim_C9 0xe2).1 (by decide), (claim_C9 0xe3).2 (by decide)⟩

/-- C10: `write_byte` called directly with a byte that is neither newline
nor printable ASCII (for example 0x00 or 0xFF) writes that byte's code into
the grid verbatim, with no placeholder substitution; the 0xFE substitution
happens only in `write_string`. -/
theorem claim_C10 (w : Writer) (hwf : w.buffer.WF)
    (hrow : w.current_row < BUFFER_HEIGHT)
    (hcol : w.current_col < BUFFER_WIDTH) (b : Nat) (hb : b ≠ 0x0a) :
    (w.write_byte b).buffer.readChar w.current_row w.current_col
      = ⟨b, w.default_color_code⟩
    ∧ (¬((0x20 ≤ b ∧ b ≤ 0x7e) ∨ b = 0x0a) →
      (w.write_string [b]).buffer.readChar w.current_row w.current_col
        = ⟨0xfe, w.default_color_code⟩) := by
  obtain ⟨hlen, hrows⟩ := hwf
  constructor
  · rw [write_byte_no_wrap w b hb hcol]
    dsimp only
    rw [readChar_writeChar_self _ _ (by omega) (by rw [hrows _ hrow]; omega)]
  · intro hnp
    have hsub : substituteByte b = 0xfe := by
      rw [substituteByte, if_neg hnp]
    rw [write_string_eq_map]
    simp only [List.map_cons, List.map_nil, hsub, List.foldl_cons,
      List.foldl_nil]
    rw [write_byte_no_wrap w 0xfe (by omega) hcol]
    dsimp only
    rw [readChar_writeChar_self _ _ (by omega) (by rw [hrows _ hrow]; omega)]

/-- C10, applied: the fresh writer given the control byte 0x00 directly and
through `write_string`. -/
theorem claim_C10_witness :
    (initialWriter.write_byte 0x00).buffer.readChar 0 0
        = ⟨0x00, initialColorCode⟩
    ∧ (¬((0x20 ≤ 0x00 ∧ 0x00 ≤ 0x7e) ∨ 0x00 = 0x0a) →
      (initialWriter.write_string [0x00]).buffer.readChar 0 0
        = ⟨0xfe, initialColorCode⟩) :=
  claim_C10 initialWriter (by decide) (by decide) (by decide) 0x00 (by decide)

/-- C3: for every non-newline byte, a `write_byte` with `current_col` at or
past the width first wraps (scroll-or-advance plus column reset to 0), so
the byte lands at column 0 of a valid, just-advanced row, and the cursor
column ends at 1; and writing exactly `width` printable bytes from column 0
with no newline fills the current row completely, leaves `current_row`
unchanged and leaves `current_col` equal to `width`. -/
theorem claim_C3 (w : Writer) (hwf : w.buffer.WF)
    (hrow : w.current_row < BUFFER_HEIGHT) :
    (∀ b, b ≠ 0x0a → BUFFER_WIDTH ≤ w.current_col →
      (w.new_line).current_col = 0
      ∧ (w.new_line).current_row < BUFFER_HEIGHT
      ∧ (w.write_byte b).buffer.readChar (w.new_line).current_row 0
          = ⟨b, w.default_color_code⟩
      ∧ (w.write_byte b).current_col = 1)
    ∧ (∀ bs : List Nat, bs.length = BUFFER_WIDTH →
      (∀ b ∈ bs, 0x20 ≤ b ∧ b ≤ 0x7e) → w.current_col = 0 →
      (bs.foldl Writer.write_byte w).current_row = w.current_row
      ∧ (bs.foldl Writer.write_byte w).current_col = BUFFER_WIDTH
      ∧ ∀ j, j < BUFFER_WIDTH →
          (bs.foldl Writer.write_byte w).buffer.readChar w.current_row j
            = ⟨bs.getD j 0, w.default_color_code⟩) := by
  constructor
  · intro b hb hcol
    have hnlwf := WF_new_line w hwf
    refine ⟨new_line_col w, new_line_row_lt w hrow, ?_, ?_⟩
    · rw [write_byte_wrap w b hb hcol]
      dsimp only
      rw [readChar_writeChar_self _ _
        (by rw [hnlwf.1]; exact new_line_row_lt w hrow)
        (by rw [hnlwf.2 _ (new_line_row_lt w hrow), BUFFER_WIDTH_eq]; omega)]
      rw [new_line_attr]
    · rw [write_byte_wrap w b hb hcol]
  · intro bs hlenbs hprint hcol0
    have hfold := write_bytes_no_wrap bs w
      (fun b hb => by have := hprint b hb; omega)
      (by rw [hcol0, hlenbs]; omega)
      (by rw [hwf.1]; exact hrow)
    rw [hfold]
    refine ⟨rfl, ?_, ?_⟩
    · show w.current_col + bs.length = BUFFER_WIDTH
      rw [hcol0, hlenbs]
      omega
    · intro j hj
      show (⟨w.buffer.chars.set w.current_row
          (writeSeg (w.buffer.chars.getD w.current_row [])
            w.current_col bs w.default_color_code)⟩ :
            Buffer).readChar w.current_row j = _
      rw [Buffer.readChar, getD_set_self (by rw [hwf.1]; exact hrow),
        hcol0,
        writeSeg_getD bs _ _ _ _ _
          (by rw [hwf.2 _ hrow, hlenbs]; omega) (by omega)
          (by rw [hlenbs]; omega),
        Nat.sub_zero]

/-- C3, applied: the fresh writer filled with 80 copies of the letter a,
and a writer at column 80 given one more byte. -/
theorem claim_C3_witness :
    (∀ b, b ≠ 0x0a →
      BUFFER_WIDTH ≤ (⟨80, 2, 7, initialBuffer⟩ : Writer).current_col →
      ((⟨80, 2, 7, initialBuffer⟩ : Writer).new_line).current_col = 0
      ∧ ((⟨80, 2, 7, initialBuffer⟩ : Writer).new_line).current_row
          < BUFFER_HEIGHT
      ∧ ((⟨80, 2, 7, initialBuffer⟩ : Writer).write_byte b).buffer.readChar
            ((⟨80, 2, 7, initialBuffer⟩ : Writer).new_line).current_row 0
          = ⟨b, 7⟩
      ∧ ((⟨80, 2, 7, initialBuffer⟩ : Writer).write_byte b).current_col = 1)
    ∧ (∀ bs : List Nat, bs.length = BUFFER_WIDTH →
      (∀ b ∈ bs, 0x20 ≤ b ∧ b ≤ 0x7e) →
      (⟨80, 2, 7, initialBuffer⟩ : Writer).current_col = 0 →
      (bs.foldl Writer.write_byte ⟨80, 2, 7, initialBuffer⟩).current_row = 2
      ∧ (bs.foldl Writer.write_byte ⟨80, 2, 7, initialBuffer⟩).current_col
          = BUFFER_WIDTH
      ∧ ∀ j, j < BUFFER_WIDTH →
          (bs.foldl Writer.write_byte
              ⟨80, 2, 7, initialBuffer⟩).buffer.readChar 2 j
            = ⟨bs.getD j 0, 7⟩) :=
  claim_C3 ⟨80, 2, 7, initialBuffer⟩ (by decide) (by decide)

/-- C5, counterexample: a newline byte fed to `write_string` on a fresh
writer (cursor at row 0) performs zero grid cell writes, not exactly one
per input byte as claimed. -/
theorem claim_C5_counterexample :
    (Writer.write_string_counted (initialWriter, 0) [0x0a]).2
      ≠ ([0x0a] : List Nat).length := by decide

/-- C5, amended: `write_string` instrumented with a grid-write counter is
faithful to `write_string`; each non-newline byte produces exactly one grid
cell write for its glyph, plus 2000 extra writes when it triggers a scroll
(newline, or wrap, while on the last row), while a newline byte alone
produces no glyph write; and the glyph write of a non-newline byte always
targets an in-bounds cell (row < height after the optional wrap, column <
width), so no out-of-bounds access is ever attempted. -/
theorem claim_C5 :
    (∀ (q : Writer × Nat) (s : List Nat),
      (Writer.write_string_counted q s).1 = q.1.write_string s)
    ∧ (∀ (q : Writer × Nat) (b : Nat),
      (Writer.write_byte_counted q b).2
        = q.2 + (if (b = 0x0a ∨ BUFFER_WIDTH ≤ q.1.current_col)
                    ∧ q.1.current_row = BUFFER_HEIGHT - 1
                 then (BUFFER_HEIGHT - 1) * BUFFER_WIDTH + BUFFER_WIDTH
                 else 0)
             + (if b = 0x0a then 0 else 1))
    ∧ (∀ (w : Writer), w.current_row < BUFFER_HEIGHT →
      (if BUFFER_WIDTH ≤ w.current_col then w.new_line else w).current_row
          < BUFFER_HEIGHT
        ∧ (if BUFFER_WIDTH ≤ w.current_col then w.new_line else w).current_col
          < BUFFER_WIDTH) := by
  refine ⟨fun q s => write_string_counted_fst s q,
    fun q b => by rw [write_byte_counted_spec], ?_⟩
  intro w hrow
  by_cases hcol : BUFFER_WIDTH ≤ w.current_col
  · rw [if_pos hcol]
    refine ⟨new_line_row_lt w hrow, ?_⟩
    rw [new_line_col, BUFFER_WIDTH_eq]
    omega
  · rw [if_neg hcol]
    exact ⟨hrow, by omega⟩

/-- C5, applied: the faithfulness equation, the write count of a printable
byte on the fresh writer, and in-bounds placement for the fresh writer. -/
theorem claim_C5_witness :
    ((Writer.write_string_counted (initialWriter, 0) [0x61, 0x0a]).1
      = initialWriter.write_string [0x61, 0x0a])
    ∧ ((Writer.write_byte_counted (initialWriter, 0) 0x61).2
      = 0 + (if (0x61 = 0x0a
                  ∨ BUFFER_WIDTH ≤ (initialWriter, 0).1.current_col)
                ∧ (initialWriter, 0).1.current_row = BUFFER_HEIGHT - 1
             then (BUFFER_HEIGHT - 1) * BUFFER_WIDTH + BUFFER_WIDTH
             else 0)
          + (if 0x61 = 0x0a then 0 else 1))
    ∧ ((if BUFFER_WIDTH ≤ initialWriter.current_col then
          initialWriter.new_line else initialWriter).current_row
        < BUFFER_HEIGHT
      ∧ (if BUFFER_WIDTH ≤ initialWriter.current_col then
          initialWriter.new_line else initialWriter).current_col
        < BUFFER_WIDTH) :=
  ⟨claim_C5.1 (initialWriter, 0) [0x61, 0x0a],
    claim_C5.2.1 (initialWriter, 0) 0x61,
    claim_C5.2.2 initialWriter (by decide)⟩

/-- C8: writing the 40 strings `"line {i}\n"` for `i` in `0..40` to a
freshly constructed console (cursor at (0,0), 25 blank rows) leaves rows
0..23 containing exactly the lines `"line 16"` through `"line 39"` in
order (each padded with blanks), row 24 blank, and the cursor at row 24,
column 0 — the state `expectedC8`. -/
theorem claim_C8 : startWriter = expectedC8 := by
  rw [startWriter, List.range_eq_range',
    show List.range' 0 40 = List.range' 0 24 ++ List.range' 24 16 from by
      decide,
    List.foldl_append, ← List.range_eq_range',
    phase1_spec 24 (by decide),
    show phase1Writer 24 = phase2Writer 0 from rfl,
    phase2_spec 16 (by omega)]
  rfl

end Zenix
